import Mathlib

/-!
Shallow embedding of the Ilocano Food Match backend
(`backend/services/matcher.py`, `backend/models/dish.py`, `backend/main.py`).

Strings are modelled as Lean `String` (lists of characters); Python's
`str.lower` is modelled on the ASCII range (`pyToLower`), which is exact for
all catalog and preference data the spec discusses.  Python's regular
expression `[^a-z0-9]+ -> " "` is modelled as mapping every non-alphanumeric
character to a space and then collapsing adjacent spaces, which computes the
same replacement of maximal runs.  `str.strip` / `\s` use the ASCII
whitespace set.
-/

namespace IlocanoMatch

/-- `[a-z0-9]` test used by the normalizer's regular expression. -/
def isLowerAlnum (c : Char) : Bool :=
  ('a' ≤ c && c ≤ 'z') || ('0' ≤ c && c ≤ '9')

/-- ASCII whitespace, the character class of Python `str.strip` and `\s`. -/
def pyIsSpace (c : Char) : Bool :=
  c == ' ' || c == '\t' || c == '\n' || c == '\r' || c == '\x0b' || c == '\x0c'

/-- Python `str.lower` restricted to the ASCII range. -/
def pyToLower (c : Char) : Char :=
  if 'A' ≤ c ∧ c ≤ 'Z' then Char.ofNat (c.toNat + 32) else c

/-- Lower-case every character (Python `s.lower()`). -/
def lowerChars (cs : List Char) : List Char :=
  cs.map pyToLower

/-- Replace each character outside `[a-z0-9]` by a space. -/
def spaceOut (cs : List Char) : List Char :=
  cs.map (fun c => if isLowerAlnum c then c else ' ')

/-- Collapse adjacent spaces, so that together with `spaceOut` every maximal
run of non-alphanumeric characters is replaced by a single space, exactly as
`re.sub(r"[^a-z0-9]+", " ", s)` does. -/
def squeezeSpaces : List Char → List Char
  | [] => []
  | [c] => [c]
  | c :: d :: rest =>
    if c = ' ' ∧ d = ' ' then squeezeSpaces (d :: rest)
    else c :: squeezeSpaces (d :: rest)

/-- Python `str.strip()`: drop whitespace from both ends. -/
def stripChars (cs : List Char) : List Char :=
  ((cs.dropWhile pyIsSpace).reverse.dropWhile pyIsSpace).reverse

/-- `normalize_token` from `backend/services/matcher.py`:
lower-case, replace runs of non-`[a-z0-9]` by one space, strip. -/
def normalize_token (s : String) : String :=
  String.mk (stripChars (squeezeSpaces (spaceOut (lowerChars s.data))))

/-- `re.sub(r"^no\s+", "", s)`: drop a leading literal "no" followed by a
(maximal, `\s+` being greedy) run of whitespace. -/
def dropLeadingNo : List Char → List Char
  | 'n' :: 'o' :: c :: rest =>
    if pyIsSpace c then (c :: rest).dropWhile pyIsSpace
    else 'n' :: 'o' :: c :: rest
  | cs => cs

/-- `parse_restriction_token` from `backend/services/matcher.py`:
lower-case; replace underscores and hyphens with spaces; strip; remove a
leading "no " prefix; strip; normalize. -/
def parse_restriction_token (restr : String) : String :=
  let s1 := lowerChars restr.data
  let s2 := s1.map (fun c => if c = '_' ∨ c = '-' then ' ' else c)
  let s3 := stripChars s2
  let s4 := dropLeadingNo s3
  let s5 := stripChars s4
  normalize_token (String.mk s5)

/-- `Dish` from `backend/models/dish.py`. -/
structure Dish where
  id : Int
  name : String
  description : String
  ingredients : List String
  taste : String
  cooking_method : String
  dietary_tags : List String
  image : Option String
  occasions : List String
deriving DecidableEq

/-- `PreferenceIn` from `backend/models/dish.py`. -/
structure PreferenceIn where
  preferred_taste : Option String
  ingredients_preference : List String
  dietary_restrictions : List String
  cooking_method : Option String
  occasion : Option String
deriving DecidableEq

/-- `RecommendationOut` from `backend/models/dish.py`. -/
structure RecommendationOut where
  id : Int
  name : String
  image : Option String
  reason : String
  score : Int
deriving DecidableEq

/-- Python's lexicographic comparison of strings as sequences of code
points (`a <= b` on `str`), written structurally so that it evaluates. -/
def charListLe : List Char → List Char → Bool
  | [], _ => true
  | _ :: _, [] => false
  | a :: as, b :: bs => if a < b then true else if a = b then charListLe as bs else false

/-- `s <= t` on Python strings. -/
def strLe (s t : String) : Prop :=
  charListLe s.data t.data = true

instance (s t : String) : Decidable (strLe s t) :=
  inferInstanceAs (Decidable (_ = true))

/-- Python f-string interpolation of an `Optional[str]` value. -/
def pyStrOpt : Option String → String
  | some s => s
  | none => "None"

/-- The preference fields of `match_dishes` after normalization
(`matcher.py` lines 51-56). -/
structure NormPrefs where
  pref_taste : String
  pref_ingredients : List String
  pref_cooking : String
  pref_occasion : String
  restriction_tokens : List String
deriving DecidableEq

/-- Normalization of the preference record at the top of `match_dishes`;
`x or ""` / `x or []` on the optional fields becomes `Option.getD`, and the
comprehension filter `if r` keeps exactly the non-empty raw restrictions. -/
def normalizePrefs (prefs : PreferenceIn) : NormPrefs where
  pref_taste := normalize_token (prefs.preferred_taste.getD "")
  pref_ingredients := prefs.ingredients_preference.map normalize_token
  pref_cooking := normalize_token (prefs.cooking_method.getD "")
  pref_occasion := normalize_token (prefs.occasion.getD "")
  restriction_tokens :=
    (prefs.dietary_restrictions.filter (fun r => r != "")).map parse_restriction_token

/-- `sorted(set(pref_ingredients).intersection(set(dish_ingredients)))`:
the distinct common tokens in ascending order. -/
def ingredientMatches (pref_ingredients dish_ingredients : List String) : List String :=
  List.insertionSort (fun a b => strLe a b)
    ((pref_ingredients.filter (fun i => dish_ingredients.contains i)).dedup)

/-- One iteration of the restriction loop (`matcher.py` lines 88-94): an
empty token is skipped, a token occurring among the dish's normalized
ingredients or tags costs 5 points and appends its reason fragment. -/
def restrictionStep (dish_ingredients dish_tags : List String)
    (acc : Int × List String) (rt : String) : Int × List String :=
  if rt ≠ "" ∧ (rt ∈ dish_ingredients ∨ rt ∈ dish_tags) then
    (acc.1 - 5, acc.2 ++ ["Contains restricted item: " ++ rt ++ " (-5)"])
  else acc

/-- The restriction `for` loop of `match_dishes`, threading the running
score and reason list. -/
def restrictionLoop (tokens dish_ingredients dish_tags : List String)
    (acc : Int × List String) : Int × List String :=
  tokens.foldl (restrictionStep dish_ingredients dish_tags) acc

/-- The per-dish body of the loop in `match_dishes` (lines 63-106): the five
scoring rules applied in source order, accumulating the score and the reason
fragments. -/
def scoreAndReasons (prefs : PreferenceIn) (np : NormPrefs) (dish : Dish) :
    Int × List String :=
  let dish_taste := normalize_token dish.taste
  let dish_ingredients := dish.ingredients.map normalize_token
  let dish_cooking := normalize_token dish.cooking_method
  let dish_tags := dish.dietary_tags.map normalize_token
  let dish_occasions := dish.occasions.map normalize_token
  let acc : Int × List String := (0, [])
  let acc :=
    if np.pref_taste ≠ "" ∧ np.pref_taste = dish_taste then
      (acc.1 + 3, acc.2 ++ ["Matches taste: " ++ dish.taste ++ " (+3)"])
    else acc
  let im := ingredientMatches np.pref_ingredients dish_ingredients
  let acc :=
    if im ≠ [] then
      (acc.1 + 3,
        acc.2 ++ ["Contains preferred ingredient(s): " ++ String.intercalate ", " im ++ " (+3)"])
    else acc
  let acc := restrictionLoop np.restriction_tokens dish_ingredients dish_tags acc
  let acc :=
    if np.pref_cooking ≠ "" ∧ np.pref_cooking = dish_cooking then
      (acc.1 + 2, acc.2 ++ ["Cooking method matches: " ++ dish.cooking_method ++ " (+2)"])
    else acc
  let acc :=
    if np.pref_occasion ≠ "" ∧ np.pref_occasion ∈ dish_occasions then
      (acc.1 + 1, acc.2 ++ ["Suitable for: " ++ pyStrOpt prefs.occasion ++ " (+1)"])
    else acc
  acc

/-- The fixed fallback reason appended when no rule fired (line 110). -/
def fallbackReason : String :=
  "No strong positive matches; showing as lower-scoring suggestion"

/-- Build one `RecommendationOut` for a dish (lines 108-121): fallback
reason when nothing matched, fragments joined with "; ". -/
def scoreDish (prefs : PreferenceIn) (np : NormPrefs) (dish : Dish) :
    RecommendationOut :=
  let acc := scoreAndReasons prefs np dish
  let reasons := if acc.2 = [] then [fallbackReason] else acc.2
  { id := dish.id, name := dish.name, image := dish.image,
    reason := String.intercalate "; " reasons, score := acc.1 }

/-- `results.sort(key=lambda r: (r.score, r.name), reverse=True)` orders `a`
before `b` exactly when the key pair of `a` is lexicographically at least
that of `b`. -/
def recGe (a b : RecommendationOut) : Prop :=
  b.score < a.score ∨ (b.score = a.score ∧ strLe b.name a.name)

instance : DecidableRel recGe := fun _ _ =>
  inferInstanceAs (Decidable (_ ∨ _))

instance : IsTotal RecommendationOut recGe where
  total a b := by
    rcases lt_trichotomy a.score b.score with h | h | h
    · exact Or.inr (Or.inl h)
    · have htot : ∀ as bs : List Char,
          charListLe as bs = true ∨ charListLe bs as = true := by
        intro as
        induction as with
        | nil => intro bs; exact Or.inl rfl
        | cons x xs ih =>
          intro bs
          cases bs with
          | nil => exact Or.inr rfl
          | cons y ys =>
            rcases lt_trichotomy x y with hc | hc | hc
            · left
              simp [charListLe, hc]
            · subst hc
              rcases ih ys with h' | h'
              · left
                simp [charListLe, h', lt_irrefl]
              · right
                simp [charListLe, h', lt_irrefl]
            · right
              simp [charListLe, hc]
      rcases htot b.name.data a.name.data with h' | h'
      · exact Or.inl (Or.inr ⟨h.symm, h'⟩)
      · exact Or.inr (Or.inr ⟨h, h'⟩)
    · exact Or.inl (Or.inl h)

instance : IsTrans RecommendationOut recGe where
  trans a b c hab hbc := by
    have htrans : ∀ as bs cs : List Char, charListLe as bs = true →
        charListLe bs cs = true → charListLe as cs = true := by
      intro as
      induction as with
      | nil => intro bs cs h1 h2; rfl
      | cons x xs ih =>
        intro bs cs h1 h2
        cases bs with
        | nil => simp [charListLe] at h1
        | cons y ys =>
          cases cs with
          | nil => simp [charListLe] at h2
          | cons z zs =>
            by_cases hxy : x < y
            · by_cases hyz : y < z
              · simp [charListLe, lt_trans hxy hyz]
              · by_cases hyz' : y = z
                · subst hyz'
                  simp [charListLe, hxy]
                · simp [charListLe, hyz, hyz'] at h2
            · by_cases hxy' : x = y
              · subst hxy'
                simp [charListLe, lt_irrefl] at h1
                by_cases hxz : x < z
                · simp [charListLe, hxz]
                · by_cases hxz' : x = z
                  · subst hxz'
                    simp [charListLe, lt_irrefl] at h2 ⊢
                    exact ih ys zs h1 h2
                  · simp [charListLe, hxz, hxz'] at h2
              · simp [charListLe, hxy, hxy'] at h1
    rcases hab with hab | ⟨hab, hab'⟩ <;> rcases hbc with hbc | ⟨hbc, hbc'⟩
    · exact Or.inl (hbc.trans hab)
    · exact Or.inl (lt_of_eq_of_lt hbc hab)
    · exact Or.inl (lt_of_lt_of_eq hbc hab)
    · exact Or.inr ⟨hbc.trans hab, htrans c.name.data b.name.data a.name.data hbc' hab'⟩

/-- `match_dishes` from `backend/services/matcher.py`: score every dish,
sort by `(score, name)` descending (Python's stable sort with
`reverse=True` is insertion sort by `recGe`), keep the first `top_n`. -/
def match_dishes (dishes : List Dish) (prefs : PreferenceIn) (top_n : Nat) :
    List RecommendationOut :=
  let np := normalizePrefs prefs
  let results := dishes.map (scoreDish prefs np)
  (List.insertionSort recGe results).take top_n

/-- The taste rule of the scoring table, as an isolated (delta, fragments)
contribution. -/
def tastePart (np : NormPrefs) (dish : Dish) : Int × List String :=
  if np.pref_taste ≠ "" ∧ np.pref_taste = normalize_token dish.taste then
    (3, ["Matches taste: " ++ dish.taste ++ " (+3)"])
  else (0, [])

/-- The ingredient rule of the scoring table, as an isolated contribution. -/
def ingredientPart (np : NormPrefs) (dish : Dish) : Int × List String :=
  let im := ingredientMatches np.pref_ingredients (dish.ingredients.map normalize_token)
  if im ≠ [] then
    (3, ["Contains preferred ingredient(s): " ++ String.intercalate ", " im ++ " (+3)"])
  else (0, [])

/-- The tokens of the parsed restriction list that actually hit the dish:
non-empty and occurring among its normalized ingredients or dietary tags. -/
def restrictionHits (tokens dish_ingredients dish_tags : List String) : List String :=
  tokens.filter (fun rt => decide (rt ≠ "" ∧ (rt ∈ dish_ingredients ∨ rt ∈ dish_tags)))

/-- The restriction rule of the scoring table: −5 and one fragment per hit. -/
def restrictionPart (np : NormPrefs) (dish : Dish) : Int × List String :=
  let hits := restrictionHits np.restriction_tokens
    (dish.ingredients.map normalize_token) (dish.dietary_tags.map normalize_token)
  (-(5 * (hits.length : Int)),
    hits.map (fun rt => "Contains restricted item: " ++ rt ++ " (-5)"))

/-- The cooking-method rule of the scoring table, as an isolated contribution. -/
def cookingPart (np : NormPrefs) (dish : Dish) : Int × List String :=
  if np.pref_cooking ≠ "" ∧ np.pref_cooking = normalize_token dish.cooking_method then
    (2, ["Cooking method matches: " ++ dish.cooking_method ++ " (+2)"])
  else (0, [])

/-- The occasion rule of the scoring table; its fragment interpolates the
request's raw occasion field. -/
def occasionPart (prefs : PreferenceIn) (np : NormPrefs) (dish : Dish) :
    Int × List String :=
  if np.pref_occasion ≠ "" ∧ np.pref_occasion ∈ dish.occasions.map normalize_token then
    (1, ["Suitable for: " ++ pyStrOpt prefs.occasion ++ " (+1)"])
  else (0, [])

/-- An HTTP error raised by the FastAPI endpoints in `backend/main.py`. -/
structure HTTPException where
  status : Nat
  detail : String
deriving DecidableEq

/-- `get_dish` from `backend/main.py`: linear scan returning the first dish
with the requested id, 404 otherwise. -/
def get_dish (dishes : List Dish) (dish_id : Int) : Except HTTPException Dish :=
  match dishes with
  | [] => Except.error ⟨404, "Dish not found"⟩
  | d :: rest => if d.id = dish_id then Except.ok d else get_dish rest dish_id

/-- `match_endpoint` from `backend/main.py`: an empty catalog (`if not
dishes`) is a 500 "Dish dataset not loaded" failure; otherwise the matcher
runs with the default `top_n = 3`. -/
def match_endpoint (dishes : List Dish) (preference : PreferenceIn) :
    Except HTTPException (List RecommendationOut) :=
  if dishes = [] then Except.error ⟨500, "Dish dataset not loaded"⟩
  else Except.ok (match_dishes dishes preference 3)

/-- The single-dish catalog of the spec's worked scenario. -/
def pinakbet : Dish :=
  ⟨1, "Pinakbet", "", ["vegetables", "pork"], "bitter", "boiled", ["pork"], none,
    ["everyday"]⟩

/-- The preference record of the spec's worked scenario. -/
def c2prefs : PreferenceIn :=
  ⟨some "bitter", [], ["no-pork"], none, none⟩

/-- A dish with one ingredient that normalizes to the empty string. -/
def punctDish : Dish :=
  ⟨1, "X", "", ["???"], "", "", [], none, []⟩

/-- A preference record whose only preferred ingredient normalizes to the
empty string. -/
def punctPrefs : PreferenceIn :=
  ⟨none, ["!!!"], [], none, none⟩

/-- A preference record whose taste, cooking method and occasion all
normalize to the empty string, with one empty-normalizing ingredient. -/
def punctPrefsAll : PreferenceIn :=
  ⟨some "!!!", ["!!!"], [], some "##", some "  "⟩

/-- The all-empty preference record. -/
def emptyPrefs : PreferenceIn :=
  ⟨none, [], [], none, none⟩

/-- A second dish, distinct in name from `pinakbet`, for tie-break tests. -/
def tupig : Dish :=
  ⟨2, "Tupig", "", ["rice"], "sweet", "grilled", [], none, ["merienda"]⟩

/-- A preference record that makes the taste, cooking-method and occasion
rules fire on `pinakbet`; its raw occasion text differs from the dish's
occasion entry. -/
def c10prefs : PreferenceIn :=
  ⟨some "bitter", [], [], some "boiled", some "EVERYDAY"⟩

/-! ## Helper lemmas -/

/-- Unfolding the restriction loop: it subtracts 5 once per hit and appends
one fragment per hit, in token order, and leaves the accumulator untouched
for every other token. -/
theorem restrictionLoop_spec (tokens dish_ingredients dish_tags : List String)
    (acc : Int × List String) :
    restrictionLoop tokens dish_ingredients dish_tags acc =
      (acc.1 - 5 * ((restrictionHits tokens dish_ingredients dish_tags).length : Int),
        acc.2 ++ (restrictionHits tokens dish_ingredients dish_tags).map
          (fun rt => "Contains restricted item: " ++ rt ++ " (-5)")) := by
  induction tokens generalizing acc with
  | nil => simp [restrictionLoop, restrictionHits]
  | cons t ts ih =>
    by_cases h : t ≠ "" ∧ (t ∈ dish_ingredients ∨ t ∈ dish_tags)
    · have hstep : restrictionStep dish_ingredients dish_tags acc t =
          (acc.1 - 5, acc.2 ++ ["Contains restricted item: " ++ t ++ " (-5)"]) := by
        simp [restrictionStep, h]
      have : restrictionLoop (t :: ts) dish_ingredients dish_tags acc =
          restrictionLoop ts dish_ingredients dish_tags
            (acc.1 - 5, acc.2 ++ ["Contains restricted item: " ++ t ++ " (-5)"]) := by
        simp [restrictionLoop, List.foldl_cons, hstep]
      rw [this, ih]
      have hh : restrictionHits (t :: ts) dish_ingredients dish_tags =
          t :: restrictionHits ts dish_ingredients dish_tags := by
        simp [restrictionHits, List.filter_cons, h]
      rw [hh]
      simp only [Prod.mk.injEq]
      constructor
      · push_cast [List.length_cons]
        ring
      · simp
    · have hstep : restrictionStep dish_ingredients dish_tags acc t = acc := by
        simp only [restrictionStep, if_neg h]
      have : restrictionLoop (t :: ts) dish_ingredients dish_tags acc =
          restrictionLoop ts dish_ingredients dish_tags acc := by
        simp [restrictionLoop, List.foldl_cons, hstep]
      rw [this, ih]
      have hh : restrictionHits (t :: ts) dish_ingredients dish_tags =
          restrictionHits ts dish_ingredients dish_tags := by
        simp [restrictionHits, List.filter_cons, h]
      rw [hh]

/-- The sequential accumulation in the dish loop equals the sum and
concatenation of the five independent rule contributions. -/
theorem scoreAndReasons_decomp (prefs : PreferenceIn) (np : NormPrefs) (dish : Dish) :
    scoreAndReasons prefs np dish =
      ((tastePart np dish).1 + (ingredientPart np dish).1 +
          (restrictionPart np dish).1 + (cookingPart np dish).1 +
          (occasionPart prefs np dish).1,
        (tastePart np dish).2 ++ (ingredientPart np dish).2 ++
          (restrictionPart np dish).2 ++ (cookingPart np dish).2 ++
          (occasionPart prefs np dish).2) := by
  simp only [scoreAndReasons, tastePart, ingredientPart, restrictionPart,
    cookingPart, occasionPart, restrictionLoop_spec]
  split_ifs <;> simp [sub_eq_add_neg]

/-- Normalizing the empty string gives the empty string. -/
theorem normalize_token_empty : normalize_token "" = "" := rfl

/-- A preference record whose fields are all empty or absent normalizes to
the all-empty `NormPrefs`. -/
theorem normalizePrefs_empty (prefs : PreferenceIn)
    (h1 : prefs.preferred_taste = none ∨ prefs.preferred_taste = some "")
    (h2 : prefs.ingredients_preference = [])
    (h3 : prefs.dietary_restrictions = [])
    (h4 : prefs.cooking_method = none ∨ prefs.cooking_method = some "")
    (h5 : prefs.occasion = none ∨ prefs.occasion = some "") :
    normalizePrefs prefs = ⟨"", [], "", "", []⟩ := by
  obtain ⟨pt, ip, dr, cm, oc⟩ := prefs
  simp only at h1 h2 h3 h4 h5
  subst h2
  subst h3
  rcases h1 with rfl | rfl <;> rcases h4 with rfl | rfl <;> rcases h5 with rfl | rfl <;> rfl

/-- Under the all-empty normalized preferences no rule fires: every dish is
scored 0 with the fallback reason. -/
theorem scoreDish_empty (prefs : PreferenceIn) (dish : Dish) :
    scoreDish prefs ⟨"", [], "", "", []⟩ dish =
      ⟨dish.id, dish.name, dish.image, fallbackReason, 0⟩ := rfl

/-- The dish loop reads the raw preference record only through the occasion
text interpolated into the occasion fragment, and not at all when the
normalized occasion is empty. -/
theorem scoreDish_prefs_congr (p q : PreferenceIn) (np : NormPrefs) (dish : Dish)
    (h : pyStrOpt p.occasion = pyStrOpt q.occasion ∨ np.pref_occasion = "") :
    scoreDish p np dish = scoreDish q np dish := by
  rcases h with h | h
  · simp [scoreDish, scoreAndReasons, h]
  · simp [scoreDish, scoreAndReasons, h]

/-! ## Claims -/

/-- C1: for every preference request, invoking the match operation on an
empty catalog yields the dataset-unavailable failure (HTTP 500, a
caller-distinguishable error) and never an empty success list, while on a
non-empty catalog the endpoint returns the successful result of
`match_dishes`, so matching is only performed when the catalog is
non-empty. -/
theorem claim_C1 (dishes : List Dish) (preference : PreferenceIn) :
    (dishes = [] →
      match_endpoint dishes preference = Except.error ⟨500, "Dish dataset not loaded"⟩ ∧
        ∀ recs : List RecommendationOut,
          match_endpoint dishes preference ≠ Except.ok recs) ∧
    (dishes ≠ [] →
      match_endpoint dishes preference =
        Except.ok (match_dishes dishes preference 3)) := by
  constructor
  · intro h
    subst h
    exact ⟨rfl, fun recs hrecs => by simp [match_endpoint] at hrecs⟩
  · intro h
    simp [match_endpoint, h]

/-- Witness for C1 at a concrete input. -/
theorem claim_C1_witness :
    match_endpoint [] c2prefs = Except.error ⟨500, "Dish dataset not loaded"⟩ ∧
      match_endpoint [pinakbet] c2prefs =
        Except.ok (match_dishes [pinakbet] c2prefs 3) :=
  ⟨((claim_C1 [] c2prefs).1 rfl).1,
    (claim_C1 [pinakbet] c2prefs).2 (by simp [pinakbet])⟩

/-- C2: on the one-dish Pinakbet catalog with preferred taste "bitter" and
dietary restriction "no-pork", `match_dishes` returns a single candidate
with score −2 whose reason contains "Matches taste: bitter (+3)" and
"Contains restricted item: pork (-5)". -/
theorem claim_C2 :
    match_dishes [pinakbet] c2prefs 3 =
      [⟨1, "Pinakbet", none,
        "Matches taste: bitter (+3); Contains restricted item: pork (-5)", -2⟩] ∧
    ("Matches taste: bitter (+3); Contains restricted item: pork (-5)" : String) =
      "" ++ "Matches taste: bitter (+3)" ++ "; Contains restricted item: pork (-5)" ∧
    ("Matches taste: bitter (+3); Contains restricted item: pork (-5)" : String) =
      "Matches taste: bitter (+3); " ++ "Contains restricted item: pork (-5)" ++ "" :=
  ⟨rfl, rfl, rfl⟩

/-- C4: for every catalog, preference request and positive `top_n`, the
result of `match_dishes` has length `min top_n (length catalog)`; in
particular when the catalog is smaller than `top_n` every dish appears. -/
theorem claim_C4 (dishes : List Dish) (prefs : PreferenceIn) (top_n : Nat)
    (_h : 0 < top_n) :
    (match_dishes dishes prefs top_n).length = min top_n dishes.length := by
  unfold match_dishes
  simp [List.length_take, List.length_insertionSort, List.length_map]

/-- Witness for C4 at a concrete input. -/
theorem claim_C4_witness :
    0 < 2 ∧ (match_dishes [pinakbet] emptyPrefs 2).length = min 2 [pinakbet].length :=
  ⟨Nat.zero_lt_two, claim_C4 [pinakbet] emptyPrefs 2 Nat.zero_lt_two⟩

/-- C9: `get_dish` either succeeds with a catalog item carrying the
requested id, or — exactly when no catalog item has that id — fails with
the distinct 404 not-found error; never an empty success. -/
theorem claim_C9 (dishes : List Dish) (dish_id : Int) :
    (∃ d, get_dish dishes dish_id = Except.ok d ∧ d ∈ dishes ∧ d.id = dish_id) ∨
    (get_dish dishes dish_id = Except.error ⟨404, "Dish not found"⟩ ∧
      ∀ d ∈ dishes, d.id ≠ dish_id) := by
  induction dishes with
  | nil => exact Or.inr ⟨rfl, by simp⟩
  | cons d rest ih =>
    by_cases h : d.id = dish_id
    · exact Or.inl ⟨d, by simp [get_dish, h], List.mem_cons_self d rest, h⟩
    · rcases ih with ⟨e, he, hm, hid⟩ | ⟨he, hall⟩
      · exact Or.inl ⟨e, by simp [get_dish, h]; exact he,
          List.mem_cons_of_mem _ hm, hid⟩
      · refine Or.inr ⟨by simp [get_dish, h]; exact he, ?_⟩
        intro e he'
        rcases List.mem_cons.mp he' with rfl | he''
        · exact h
        · exact hall e he''

/-- C3: the sequence returned by `match_dishes` is ordered by score
descending with ties broken by name descending: for adjacent entries, the
later one has a strictly smaller score, or an equal score and a name that
is lexicographically at most the earlier one's. -/
theorem claim_C3 (dishes : List Dish) (prefs : PreferenceIn) (top_n : Nat)
    (_h : 0 < top_n) (i : Nat) (a b : RecommendationOut)
    (ha : (match_dishes dishes prefs top_n)[i]? = some a)
    (hb : (match_dishes dishes prefs top_n)[i + 1]? = some b) :
    b.score < a.score ∨ (b.score = a.score ∧ strLe b.name a.name) := by
  have hs : List.Sorted recGe (match_dishes dishes prefs top_n) := by
    unfold match_dishes
    exact (List.sorted_insertionSort recGe _).sublist (List.take_sublist _ _)
  obtain ⟨hia, hga⟩ := List.getElem?_eq_some_iff.mp ha
  obtain ⟨hib, hgb⟩ := List.getElem?_eq_some_iff.mp hb
  have hrel := hs.rel_get_of_lt
    (Fin.mk_lt_mk.mpr (Nat.lt_succ_self i) :
      (⟨i, hia⟩ : Fin (match_dishes dishes prefs top_n).length) < ⟨i + 1, hib⟩)
  rw [List.get_eq_getElem, List.get_eq_getElem] at hrel
  rw [hga, hgb] at hrel
  exact hrel

/-- Witness for C3 at a concrete input: two dishes tie at score 0 and the
names appear in descending order. -/
theorem claim_C3_witness :
    (0 < 3 ∧
      (match_dishes [pinakbet, tupig] emptyPrefs 3)[0]? =
        some ⟨2, "Tupig", none, fallbackReason, 0⟩ ∧
      (match_dishes [pinakbet, tupig] emptyPrefs 3)[0 + 1]? =
        some ⟨1, "Pinakbet", none, fallbackReason, 0⟩) ∧
    ((0 : Int) < 0 ∨
      ((0 : Int) = 0 ∧ strLe "Pinakbet" "Tupig")) :=
  ⟨⟨(by decide : (0:Nat) < 3), by decide, by decide⟩,
    claim_C3 [pinakbet, tupig] emptyPrefs 3 (by decide : (0:Nat) < 3) 0
      ⟨2, "Tupig", none, fallbackReason, 0⟩
      ⟨1, "Pinakbet", none, fallbackReason, 0⟩ (by decide) (by decide)⟩

/-- C6: the restriction loop over the parsed restriction-token list
subtracts 5 and appends "Contains restricted item: <token> (-5)" once per
entry that is non-empty and occurs among the dish's normalized ingredients
or normalized dietary tags (`restrictionHits`), and a token that is empty
or absent from both lists leaves the accumulator unchanged. -/
theorem claim_C6 (prefs : PreferenceIn) (dish : Dish) (acc : Int × List String) :
    (restrictionLoop (normalizePrefs prefs).restriction_tokens
        (dish.ingredients.map normalize_token)
        (dish.dietary_tags.map normalize_token) acc =
      (acc.1 - 5 * ((restrictionHits (normalizePrefs prefs).restriction_tokens
            (dish.ingredients.map normalize_token)
            (dish.dietary_tags.map normalize_token)).length : Int),
        acc.2 ++ (restrictionHits (normalizePrefs prefs).restriction_tokens
            (dish.ingredients.map normalize_token)
            (dish.dietary_tags.map normalize_token)).map
          (fun rt => "Contains restricted item: " ++ rt ++ " (-5)"))) ∧
    (∀ rt : String,
      rt = "" ∨ (rt ∉ dish.ingredients.map normalize_token ∧
          rt ∉ dish.dietary_tags.map normalize_token) →
        restrictionStep (dish.ingredients.map normalize_token)
          (dish.dietary_tags.map normalize_token) acc rt = acc) := by
  refine ⟨restrictionLoop_spec _ _ _ acc, ?_⟩
  intro rt hrt
  rcases hrt with rfl | ⟨hni, hnt⟩
  · simp [restrictionStep]
  · have : ¬(rt ≠ "" ∧ (rt ∈ dish.ingredients.map normalize_token ∨
        rt ∈ dish.dietary_tags.map normalize_token)) := by
      rintro ⟨-, hmem | hmem⟩
      · exact hni hmem
      · exact hnt hmem
    simp only [restrictionStep, if_neg this]

/-- Witness for C6 at a concrete input. -/
theorem claim_C6_witness :
    restrictionStep (pinakbet.ingredients.map normalize_token)
      (pinakbet.dietary_tags.map normalize_token) ((0 : Int), ([] : List String)) "" =
      ((0 : Int), ([] : List String)) :=
  (claim_C6 c2prefs pinakbet ((0 : Int), ([] : List String))).2 "" (Or.inl rfl)

/-- C10: whenever the occasion rule fires, the appended fragment
interpolates the request's original occasion string ("Suitable for:
<prefs.occasion> (+1)"), while the taste and cooking-method fragments
interpolate the dish's own raw field. -/
theorem claim_C10 (prefs : PreferenceIn) (np : NormPrefs) (dish : Dish) :
    (np.pref_occasion ≠ "" → np.pref_occasion ∈ dish.occasions.map normalize_token →
      ("Suitable for: " ++ pyStrOpt prefs.occasion ++ " (+1)") ∈
        (scoreAndReasons prefs np dish).2) ∧
    (np.pref_taste ≠ "" → np.pref_taste = normalize_token dish.taste →
      ("Matches taste: " ++ dish.taste ++ " (+3)") ∈
        (scoreAndReasons prefs np dish).2) ∧
    (np.pref_cooking ≠ "" → np.pref_cooking = normalize_token dish.cooking_method →
      ("Cooking method matches: " ++ dish.cooking_method ++ " (+2)") ∈
        (scoreAndReasons prefs np dish).2) := by
  rw [scoreAndReasons_decomp]
  refine ⟨fun h1 h2 => ?_, fun h1 h2 => ?_, fun h1 h2 => ?_⟩
  · have : occasionPart prefs np dish =
        (1, ["Suitable for: " ++ pyStrOpt prefs.occasion ++ " (+1)"]) := by
      simp [occasionPart, h1, h2]
    simp [this]
  · have : tastePart np dish = (3, ["Matches taste: " ++ dish.taste ++ " (+3)"]) := by
      simp only [tastePart]
      rw [if_pos (And.intro h1 h2)]
    simp [this]
  · have : cookingPart np dish =
        (2, ["Cooking method matches: " ++ dish.cooking_method ++ " (+2)"]) := by
      simp only [cookingPart]
      rw [if_pos (And.intro h1 h2)]
    simp [this]

/-- C7 counterexample: the preferred-ingredient entry "!!!" and the dish
ingredient "???" both normalize to the empty string, and then the +3
ingredient rule does fire, with fragment
"Contains preferred ingredient(s):  (+3)" and score 3 — refuting the claim
that an empty-normalizing preference field never matches under any of the
five rules. -/
theorem claim_C7_cex :
    normalize_token "!!!" = "" ∧ normalize_token "???" = "" ∧
    match_dishes [punctDish] punctPrefs 3 =
      [⟨1, "X", none, "Contains preferred ingredient(s):  (+3)", 3⟩] :=
  ⟨rfl, rfl, rfl⟩

/-- C7 (amended): a preference field whose normalization is empty
contributes nothing under the taste, cooking-method and occasion rules
(removing the field entirely yields the identical scored output), and an
empty restriction token leaves the accumulator untouched; however, an
empty-normalizing entry in the preferred-ingredient set does trigger the
+3 ingredient rule when the dish also has an empty-normalizing
ingredient. -/
theorem claim_C7 (prefs : PreferenceIn) (dish : Dish) :
    (normalize_token (prefs.preferred_taste.getD "") = "" →
      scoreDish prefs (normalizePrefs prefs) dish =
        scoreDish { prefs with preferred_taste := none }
          (normalizePrefs { prefs with preferred_taste := none }) dish) ∧
    (normalize_token (prefs.cooking_method.getD "") = "" →
      scoreDish prefs (normalizePrefs prefs) dish =
        scoreDish { prefs with cooking_method := none }
          (normalizePrefs { prefs with cooking_method := none }) dish) ∧
    (normalize_token (prefs.occasion.getD "") = "" →
      scoreDish prefs (normalizePrefs prefs) dish =
        scoreDish { prefs with occasion := none }
          (normalizePrefs { prefs with occasion := none }) dish) ∧
    (∀ acc : Int × List String,
      restrictionStep (dish.ingredients.map normalize_token)
        (dish.dietary_tags.map normalize_token) acc "" = acc) ∧
    ("" ∈ (normalizePrefs prefs).pref_ingredients →
      "" ∈ dish.ingredients.map normalize_token →
      ingredientMatches (normalizePrefs prefs).pref_ingredients
        (dish.ingredients.map normalize_token) ≠ []) := by
  refine ⟨fun h => ?_, fun h => ?_, fun h => ?_, fun acc => ?_, fun hp hd => ?_⟩
  · have hq : normalizePrefs { prefs with preferred_taste := none } =
        normalizePrefs prefs := by
      simp [normalizePrefs, h, normalize_token_empty]
    rw [hq]
    exact scoreDish_prefs_congr prefs _ _ dish (Or.inl rfl)
  · have hq : normalizePrefs { prefs with cooking_method := none } =
        normalizePrefs prefs := by
      simp [normalizePrefs, h, normalize_token_empty]
    rw [hq]
    exact scoreDish_prefs_congr prefs _ _ dish (Or.inl rfl)
  · have hq : normalizePrefs { prefs with occasion := none } =
        normalizePrefs prefs := by
      simp [normalizePrefs, h, normalize_token_empty]
    rw [hq]
    exact scoreDish_prefs_congr prefs _ _ dish (Or.inr h)
  · simp [restrictionStep]
  · intro hcontra
    have hperm := List.perm_insertionSort (fun a b => strLe a b)
      (((normalizePrefs prefs).pref_ingredients.filter
        (fun i => (dish.ingredients.map normalize_token).contains i)).dedup)
    rw [show List.insertionSort (fun a b => strLe a b)
        (((normalizePrefs prefs).pref_ingredients.filter
          (fun i => (dish.ingredients.map normalize_token).contains i)).dedup) =
        ingredientMatches (normalizePrefs prefs).pref_ingredients
          (dish.ingredients.map normalize_token) from rfl, hcontra] at hperm
    have hnil := hperm.symm.eq_nil
    have hmem : ("" : String) ∈
        ((normalizePrefs prefs).pref_ingredients.filter
          (fun i => (dish.ingredients.map normalize_token).contains i)).dedup :=
      List.mem_dedup.mpr (List.mem_filter.mpr ⟨hp, by simpa using hd⟩)
    rw [hnil] at hmem
    exact List.not_mem_nil _ hmem

/-- Witness for C7 at a concrete input: every field of `punctPrefsAll`
normalizes to the empty string. -/
theorem claim_C7_witness :
    (scoreDish punctPrefsAll (normalizePrefs punctPrefsAll) punctDish =
      scoreDish { punctPrefsAll with preferred_taste := none }
        (normalizePrefs { punctPrefsAll with preferred_taste := none }) punctDish) ∧
    ingredientMatches (normalizePrefs punctPrefsAll).pref_ingredients
      (punctDish.ingredients.map normalize_token) ≠ [] :=
  ⟨(claim_C7 punctPrefsAll punctDish).1 (by decide),
    (claim_C7 punctPrefsAll punctDish).2.2.2.2 (by decide) (by decide)⟩

/-- C8 counterexample: on a non-empty catalog with the all-empty
preference request, the returned reason string is the fallback text
without a trailing period, not the string with the period the claim
demands. -/
theorem claim_C8_cex :
    match_dishes [pinakbet] emptyPrefs 3 =
      [⟨1, "Pinakbet", none,
        "No strong positive matches; showing as lower-scoring suggestion", 0⟩] ∧
    ("No strong positive matches; showing as lower-scoring suggestion" : String) ≠
      "No strong positive matches; showing as lower-scoring suggestion." :=
  ⟨rfl, by decide⟩

/-- C8 (amended): for every non-empty catalog, matching the all-empty
preference request returns a non-empty list (for positive `top_n`) of
candidates each carrying score 0 and exactly the fallback reason "No
strong positive matches; showing as lower-scoring suggestion" (no trailing
period), ordered by name descending. -/
theorem claim_C8 (dishes : List Dish) (prefs : PreferenceIn) (top_n : Nat)
    (hne : dishes ≠ [])
    (h1 : prefs.preferred_taste = none ∨ prefs.preferred_taste = some "")
    (h2 : prefs.ingredients_preference = [])
    (h3 : prefs.dietary_restrictions = [])
    (h4 : prefs.cooking_method = none ∨ prefs.cooking_method = some "")
    (h5 : prefs.occasion = none ∨ prefs.occasion = some "") :
    (0 < top_n → match_dishes dishes prefs top_n ≠ []) ∧
    (∀ r ∈ match_dishes dishes prefs top_n,
      r.score = 0 ∧ r.reason = fallbackReason) ∧
    (∀ (i : Nat) (a b : RecommendationOut),
      (match_dishes dishes prefs top_n)[i]? = some a →
      (match_dishes dishes prefs top_n)[i + 1]? = some b →
      strLe b.name a.name) := by
  have hnp := normalizePrefs_empty prefs h1 h2 h3 h4 h5
  have hmem : ∀ r ∈ match_dishes dishes prefs top_n,
      r.score = 0 ∧ r.reason = fallbackReason := by
    intro r hr
    simp only [match_dishes] at hr
    have hr2 : r ∈ dishes.map (scoreDish prefs (normalizePrefs prefs)) :=
      (List.Perm.mem_iff (List.perm_insertionSort recGe _)).mp
        (List.take_subset _ _ hr)
    obtain ⟨dish, _, rfl⟩ := List.mem_map.mp hr2
    rw [hnp, scoreDish_empty]
    exact ⟨rfl, rfl⟩
  refine ⟨fun htop => ?_, hmem, fun i a b ha hb => ?_⟩
  · have hlen : (match_dishes dishes prefs top_n).length = min top_n dishes.length := by
      unfold match_dishes
      simp
    exact List.ne_nil_of_length_pos
      (hlen ▸ Nat.lt_min.mpr ⟨htop, List.length_pos.mpr hne⟩)
  · have hs : List.Sorted recGe (match_dishes dishes prefs top_n) := by
      unfold match_dishes
      exact (List.sorted_insertionSort recGe _).sublist (List.take_sublist _ _)
    obtain ⟨hia, hga⟩ := List.getElem?_eq_some_iff.mp ha
    obtain ⟨hib, hgb⟩ := List.getElem?_eq_some_iff.mp hb
    have hrel := hs.rel_get_of_lt
      (Fin.mk_lt_mk.mpr (Nat.lt_succ_self i) :
        (⟨i, hia⟩ : Fin (match_dishes dishes prefs top_n).length) < ⟨i + 1, hib⟩)
    rw [List.get_eq_getElem, List.get_eq_getElem, hga, hgb] at hrel
    rcases hrel with hlt | ⟨-, hname⟩
    · have hsa := (hmem a (List.getElem?_mem ha)).1
      have hsb := (hmem b (List.getElem?_mem hb)).1
      rw [hsa, hsb] at hlt
      exact absurd hlt (lt_irrefl 0)
    · exact hname

/-- Witness for C8 at a concrete input. -/
theorem claim_C8_witness :
    match_dishes [pinakbet, tupig] emptyPrefs 3 ≠ [] ∧
      ∀ r ∈ match_dishes [pinakbet, tupig] emptyPrefs 3,
        r.score = 0 ∧ r.reason = fallbackReason :=
  ⟨(claim_C8 [pinakbet, tupig] emptyPrefs 3 (by decide) (Or.inl rfl) rfl rfl
      (Or.inl rfl) (Or.inl rfl)).1 (by decide),
    (claim_C8 [pinakbet, tupig] emptyPrefs 3 (by decide) (Or.inl rfl) rfl rfl
      (Or.inl rfl) (Or.inl rfl)).2.1⟩

/-- Witness for C10 at a concrete input: the request's raw occasion
"EVERYDAY" differs from the dish's entry "everyday", and it is the raw
request text that appears in the fragment. -/
theorem claim_C10_witness :
    (("Suitable for: " ++ pyStrOpt c10prefs.occasion ++ " (+1)") ∈
      (scoreAndReasons c10prefs (normalizePrefs c10prefs) pinakbet).2) ∧
    (("Matches taste: " ++ pinakbet.taste ++ " (+3)") ∈
      (scoreAndReasons c10prefs (normalizePrefs c10prefs) pinakbet).2) ∧
    (("Cooking method matches: " ++ pinakbet.cooking_method ++ " (+2)") ∈
      (scoreAndReasons c10prefs (normalizePrefs c10prefs) pinakbet).2) :=
  ⟨(claim_C10 c10prefs (normalizePrefs c10prefs) pinakbet).1 (by decide) (by decide),
    (claim_C10 c10prefs (normalizePrefs c10prefs) pinakbet).2.1 (by decide) (by decide),
    (claim_C10 c10prefs (normalizePrefs c10prefs) pinakbet).2.2 (by decide) (by decide)⟩

/-! ## Idempotence of the normalizer -/

/-- Every character of `spaceOut l` is a lowercase alphanumeric or a space. -/
theorem spaceOut_good (l : List Char) :
    ∀ c ∈ spaceOut l, isLowerAlnum c = true ∨ c = ' ' := by
  intro c hc
  simp only [spaceOut, List.mem_map] at hc
  obtain ⟨d, -, rfl⟩ := hc
  by_cases h : isLowerAlnum d
  · left
    simp [h]
  · right
    simp [h]

/-- `squeezeSpaces` only deletes characters. -/
theorem squeezeSpaces_subset (l : List Char) : ∀ c ∈ squeezeSpaces l, c ∈ l := by
  induction l with
  | nil => simp [squeezeSpaces]
  | cons a t ih =>
    cases t with
    | nil => simp [squeezeSpaces]
    | cons b u =>
      intro c hc
      simp only [squeezeSpaces] at hc
      by_cases hab : a = ' ' ∧ b = ' '
      · rw [if_pos hab] at hc
        exact List.mem_cons_of_mem _ (ih c hc)
      · rw [if_neg hab] at hc
        rcases List.mem_cons.mp hc with rfl | hc'
        · exact List.mem_cons_self _ _
        · exact List.mem_cons_of_mem _ (ih c hc')

/-- `stripChars` only deletes characters. -/
theorem stripChars_subset (l : List Char) : ∀ c ∈ stripChars l, c ∈ l := by
  intro c hc
  simp only [stripChars, List.mem_reverse] at hc
  have h1 : c ∈ (l.dropWhile pyIsSpace).reverse :=
    (List.dropWhile_sublist _).subset hc
  rw [List.mem_reverse] at h1
  exact (List.dropWhile_sublist _).subset h1

/-- Lower-casing fixes lowercase alphanumerics and spaces. -/
theorem pyToLower_eq_self (c : Char) (h : isLowerAlnum c = true ∨ c = ' ') :
    pyToLower c = c := by
  rcases h with h | rfl
  · unfold pyToLower
    rw [if_neg]
    rintro ⟨h1, h2⟩
    simp only [isLowerAlnum, Bool.or_eq_true, Bool.and_eq_true,
      decide_eq_true_eq] at h
    rcases h with ⟨ha, -⟩ | ⟨-, hb⟩
    · exact absurd (le_trans ha h2) (by decide)
    · exact absurd (le_trans h1 hb) (by decide)
  · rfl

/-- `lowerChars` fixes strings of lowercase alphanumerics and spaces. -/
theorem lowerChars_eq_self (l : List Char)
    (h : ∀ c ∈ l, isLowerAlnum c = true ∨ c = ' ') : lowerChars l = l := by
  unfold lowerChars
  rw [List.map_congr_left fun a ha => pyToLower_eq_self a (h a ha)]
  exact List.map_id l

/-- `spaceOut` fixes strings of lowercase alphanumerics and spaces. -/
theorem spaceOut_eq_self (l : List Char)
    (h : ∀ c ∈ l, isLowerAlnum c = true ∨ c = ' ') : spaceOut l = l := by
  unfold spaceOut
  have hcg : ∀ a ∈ l, (if isLowerAlnum a then a else ' ') = id a := by
    intro a ha
    rcases h a ha with h' | rfl
    · simp [h']
    · simp
  rw [List.map_congr_left hcg]
  exact List.map_id l

/-- `squeezeSpaces` preserves the head character. -/
theorem squeezeSpaces_head (d : Char) (l : List Char) :
    ∃ t, squeezeSpaces (d :: l) = d :: t := by
  induction l generalizing d with
  | nil => exact ⟨[], rfl⟩
  | cons b u ih =>
    by_cases h : d = ' ' ∧ b = ' '
    · obtain ⟨hd, hb⟩ := h
      subst hd
      subst hb
      obtain ⟨t, ht⟩ := ih ' '
      refine ⟨t, ?_⟩
      simp only [squeezeSpaces, if_pos (And.intro rfl rfl)]
      exact ht
    · exact ⟨squeezeSpaces (b :: u), by simp only [squeezeSpaces, if_neg h]⟩

/-- The output of `squeezeSpaces` has no two adjacent spaces. -/
theorem squeezeSpaces_chain (l : List Char) :
    List.Chain' (fun a b => ¬(a = ' ' ∧ b = ' ')) (squeezeSpaces l) := by
  induction l with
  | nil => simp [squeezeSpaces]
  | cons a t ih =>
    cases t with
    | nil => simp [squeezeSpaces]
    | cons b u =>
      by_cases h : a = ' ' ∧ b = ' '
      · simpa only [squeezeSpaces, if_pos h] using ih
      · obtain ⟨t', ht'⟩ := squeezeSpaces_head b u
        simp only [squeezeSpaces, if_neg h]
        rw [ht', List.chain'_cons]
        exact ⟨h, ht' ▸ ih⟩

/-- `dropWhile` preserves the no-adjacent-spaces invariant. -/
theorem chain'_dropWhile {R : Char → Char → Prop} (p : Char → Bool)
    (l : List Char) (h : List.Chain' R l) : List.Chain' R (l.dropWhile p) := by
  induction l with
  | nil => simp
  | cons a t ih =>
    rw [List.dropWhile_cons]
    split
    · exact ih h.tail
    · exact h

/-- `stripChars` preserves the no-adjacent-spaces invariant. -/
theorem chain'_stripChars (l : List Char)
    (h : List.Chain' (fun a b => ¬(a = ' ' ∧ b = ' ')) l) :
    List.Chain' (fun a b => ¬(a = ' ' ∧ b = ' ')) (stripChars l) := by
  unfold stripChars
  have hsymm : ∀ (m : List Char),
      List.Chain' (fun a b => ¬(a = ' ' ∧ b = ' ')) m →
      List.Chain' (flip fun a b => ¬(a = ' ' ∧ b = ' ')) m := by
    intro m hm
    exact hm.imp fun a b hab => fun hp => hab ⟨hp.2, hp.1⟩
  have h1 := chain'_dropWhile pyIsSpace l h
  have h2 := List.chain'_reverse.mpr (hsymm _ h1)
  have h3 := chain'_dropWhile pyIsSpace _ h2
  exact List.chain'_reverse.mpr (hsymm _ h3)

/-- `squeezeSpaces` fixes strings with no two adjacent spaces. -/
theorem squeezeSpaces_eq_self (l : List Char)
    (h : List.Chain' (fun a b => ¬(a = ' ' ∧ b = ' ')) l) :
    squeezeSpaces l = l := by
  induction l with
  | nil => rfl
  | cons a t ih =>
    cases t with
    | nil => rfl
    | cons b u =>
      obtain ⟨hab, htail⟩ := List.chain'_cons.mp h
      simp only [squeezeSpaces, if_neg hab]
      rw [ih htail]

/-- `dropWhile` is the identity when the head does not satisfy `p`. -/
theorem dropWhile_eq_self_of_head (p : Char → Bool) (l : List Char)
    (h : ∀ c, l.head? = some c → p c = false) : l.dropWhile p = l := by
  cases l with
  | nil => rfl
  | cons a t =>
    rw [List.dropWhile_cons]
    simp [h a rfl]

/-- The head of `dropWhile p l` does not satisfy `p`. -/
theorem head?_dropWhile (p : Char → Bool) (l : List Char) :
    ∀ c, (l.dropWhile p).head? = some c → p c = false := by
  induction l with
  | nil =>
    intro c hc
    simp at hc
  | cons a t ih =>
    intro c hc
    rw [List.dropWhile_cons] at hc
    by_cases h : p a
    · rw [if_pos h] at hc
      exact ih c hc
    · rw [if_neg h] at hc
      simp only [List.head?_cons, Option.some.injEq] at hc
      subst hc
      simpa using h

/-- A non-empty `dropWhile` keeps the last element. -/
theorem getLast?_dropWhile (p : Char → Bool) (l : List Char)
    (h : l.dropWhile p ≠ []) : (l.dropWhile p).getLast? = l.getLast? := by
  induction l with
  | nil => exact absurd rfl h
  | cons a t ih =>
    rw [List.dropWhile_cons] at h ⊢
    by_cases hp : p a
    · rw [if_pos hp] at h ⊢
      rw [ih h]
      have ht : t ≠ [] := by
        intro h'
        rw [h'] at h
        exact h rfl
      cases t with
      | nil => exact absurd rfl ht
      | cons b u => rw [List.getLast?_cons_cons]
    · rw [if_neg hp]

/-- `stripChars` is the identity on already-stripped strings. -/
theorem stripChars_eq_self (l : List Char)
    (hhead : ∀ c, l.head? = some c → pyIsSpace c = false)
    (hlast : ∀ c, l.getLast? = some c → pyIsSpace c = false) :
    stripChars l = l := by
  unfold stripChars
  rw [dropWhile_eq_self_of_head pyIsSpace l hhead]
  rw [dropWhile_eq_self_of_head pyIsSpace l.reverse ?hrev]
  · exact List.reverse_reverse l
  · intro c hc
    rw [List.head?_reverse] at hc
    exact hlast c hc

/-- The head of a stripped string is not whitespace. -/
theorem head?_stripChars (l : List Char) :
    ∀ c, (stripChars l).head? = some c → pyIsSpace c = false := by
  intro c hc
  unfold stripChars at hc
  rw [List.head?_reverse] at hc
  have hne : List.dropWhile pyIsSpace (l.dropWhile pyIsSpace).reverse ≠ [] := by
    intro h0
    rw [h0] at hc
    simp at hc
  rw [getLast?_dropWhile _ _ hne, List.getLast?_reverse] at hc
  exact head?_dropWhile pyIsSpace l c hc

/-- The last character of a stripped string is not whitespace. -/
theorem getLast?_stripChars (l : List Char) :
    ∀ c, (stripChars l).getLast? = some c → pyIsSpace c = false := by
  intro c hc
  unfold stripChars at hc
  rw [List.getLast?_reverse] at hc
  exact head?_dropWhile pyIsSpace _ c hc

/-- Every character of a normalized token is a lowercase alphanumeric or a
space. -/
theorem normalize_good (s : String) :
    ∀ c ∈ (normalize_token s).data, isLowerAlnum c = true ∨ c = ' ' := by
  intro c hc
  have h2 := stripChars_subset _ c hc
  have h3 := squeezeSpaces_subset _ c h2
  exact spaceOut_good _ c h3

/-- A normalized token has no two adjacent spaces. -/
theorem normalize_chain (s : String) :
    List.Chain' (fun a b => ¬(a = ' ' ∧ b = ' ')) (normalize_token s).data :=
  chain'_stripChars _ (squeezeSpaces_chain _)

/-- The normalizer is idempotent. -/
theorem normalize_token_idem (s : String) :
    normalize_token (normalize_token s) = normalize_token s := by
  have hgood := normalize_good s
  have hA : lowerChars (normalize_token s).data = (normalize_token s).data :=
    lowerChars_eq_self _ hgood
  have hB : spaceOut (normalize_token s).data = (normalize_token s).data :=
    spaceOut_eq_self _ hgood
  have hC : squeezeSpaces (normalize_token s).data = (normalize_token s).data :=
    squeezeSpaces_eq_self _ (normalize_chain s)
  have hD : stripChars (normalize_token s).data = (normalize_token s).data :=
    stripChars_eq_self _ (head?_stripChars _) (getLast?_stripChars _)
  show String.mk (stripChars (squeezeSpaces (spaceOut
    (lowerChars (normalize_token s).data)))) = normalize_token s
  rw [hA, hB, hC, hD]

/-- C5: `normalize_token` is idempotent, and restriction parsing is
insensitive to case and punctuation-style variation: "No-Pork", "no_pork"
and "no pork" all parse to the restriction token "pork". -/
theorem claim_C5 :
    (∀ s : String, normalize_token (normalize_token s) = normalize_token s) ∧
    parse_restriction_token "No-Pork" = "pork" ∧
    parse_restriction_token "no_pork" = "pork" ∧
    parse_restriction_token "no pork" = "pork" :=
  ⟨normalize_token_idem, rfl, rfl, rfl⟩

end IlocanoMatch
